import Mathlib

/-!
Verification of the fractalshades post-processing layer and of the
perturbation-engine contract.

The definitions below shallowly embed `src/fractalshades/postproc.py`
(the classes `Postproc_batch`, `Raw_pp`, `Continuous_iter_pp`,
`Fieldlines_pp`, `Fractal_array` and the numba kernels), together with a
model of the perturbation engine drawn from the specification where the
engine module itself is not part of this source tree.  Machine floats are
embedded as rational numbers (exact field arithmetic); numpy arrays over pixels are embedded as lists or
index functions.
-/

namespace Fractalshades

/-! ## Continuous iteration number (`Continuous_iter_pp`, postproc.py 250-384) -/

/-- Per-pixel outputs of the numba kernel `Continuous_iter_pp_infinity`
(postproc.py 921-968): the raw fractional iteration count `nu_frac`, the
backward shift `back_iter` of the orbit start, and the extra iterations
`delta_n` performed to reach the cutoff circle.  The kernel itself is a
float computation whose outputs are taken here as inputs of the
normalization step implemented in `Continuous_iter_pp.__getitem__`. -/
structure InfinityKernelOut where
  nu_frac : ℚ
  back_iter : ℕ
  delta_n : ℕ

/-- Result of `Continuous_iter_pp.__getitem__` for one pixel: the returned
value `val`, and the entries `n` and `nu_frac` published in the chunk
context for downstream post-processors (postproc.py 374-384). -/
structure ContinuousIterResult where
  val : ℚ
  ctx_n : ℤ
  ctx_nu_frac : ℚ

/-- Per-pixel embedding of `Continuous_iter_pp.__getitem__` for the
`"infinity"` potential kind (postproc.py 329-384): `n` is the stored
`stop_iter` augmented by `delta_n + back_iter`; the raw `nu_frac` is
normalized through `nu_div, nu_mod = np.divmod(-nu_frac, 1.)` followed by
`nu_frac = -nu_mod`, and the returned value is `val = n + nu_frac`.
`np.divmod(x, 1.)` is floor division, so `nu_mod` is the fractional part
`Int.fract x` of the real embedding. -/
def Continuous_iter_getitem (stop_iter : ℕ) (ker : InfinityKernelOut) :
    ContinuousIterResult :=
  let n : ℤ := (stop_iter : ℤ) + (ker.delta_n : ℤ) + (ker.back_iter : ℤ)
  let nu_mod : ℚ := Int.fract (-ker.nu_frac)
  let nu_frac : ℚ := -nu_mod
  { val := (n : ℚ) + nu_frac, ctx_n := n, ctx_nu_frac := nu_frac }

/-- Claim C8: for every pixel, `Continuous_iter_pp.__getitem__` returns
`val = n + nu_frac` where, after the divmod normalization, the fractional
part satisfies `-1 < nu_frac <= 0`, and this normalized `nu_frac` is the
value published in the chunk context for downstream post-processors. -/
theorem c8_continuous_iter_nu_frac_range (stop_iter : ℕ) (ker : InfinityKernelOut) :
    (-1 < (Continuous_iter_getitem stop_iter ker).ctx_nu_frac
      ∧ (Continuous_iter_getitem stop_iter ker).ctx_nu_frac ≤ 0)
    ∧ (Continuous_iter_getitem stop_iter ker).val
        = ((Continuous_iter_getitem stop_iter ker).ctx_n : ℚ)
          + (Continuous_iter_getitem stop_iter ker).ctx_nu_frac := by
  refine ⟨⟨?_, ?_⟩, rfl⟩
  · have h := Int.fract_lt_one (-ker.nu_frac)
    simp only [Continuous_iter_getitem]
    linarith
  · have h := Int.fract_nonneg (-ker.nu_frac)
    simp only [Continuous_iter_getitem]
    linarith

/-! ## `Fractal_array` (postproc.py 771-916) -/

/-- Model of the values a `func` argument can take in `Raw_pp.__init__` and
`Fractal_array.__init__`: `None`, a string of variable x (e.g. "np.sin(x)"),
the function object produced by `fs_parser.func_parser(["x"], s)` for such a
string, or a plain Python callable (identified by an id, since Python
compares function objects by identity). -/
inductive FuncArg where
  | fnone : FuncArg
  | fstr : String → FuncArg
  | fparsed : String → FuncArg
  | fcallable : Nat → FuncArg
deriving DecidableEq

/-- `Fractal_array.parse_func` (postproc.py 817-822): a string is parsed by
`fs_parser.func_parser`, anything else is returned unchanged. -/
def parse_func : FuncArg → FuncArg
  | FuncArg.fstr s => FuncArg.fparsed s
  | f => f

/-- Saved codes of a calculation, `fractal._calc_data[calc_name]["saved_codes"]`:
the complex codes, int codes and termination codes of the stored schema. -/
structure Codes where
  complexCodes : List String
  intCodes : List String
  terminationCodes : List String
deriving DecidableEq

/-- Data of a fractal object visible to `Fractal_array.__getitem__`:
the saved codes, the chunk rank function, the report memmap columns
`chunk1d_begin` and `chunk1d_end` indexed by rank, the data memmaps
(`arr_str` then field row then one-dimensional pixel index), and the total
pixel count of the full range. -/
structure FractalModel (α : Type) where
  codes : Codes
  chunkRank : Nat → Nat
  reportBegin : Nat → Nat
  reportEnd : Nat → Nat
  dataMmap : String → Nat → Nat → α
  npts : Nat

/-- Modelled from the spec: the per-pixel field catalogue, "a mapping from
symbolic field name to storage kind (complex, integer, or classification
code)".  The classifier `kind_from_code` is declared on the `Fractal` class,
which is not part of this source tree; per the spec failure mode, a field
name absent from the stored schema is a usage error surfaced immediately. -/
def kind_from_code (key : String) (codes : Codes) : Except String String :=
  if key = "stop_reason" then Except.ok "stop_reason"
  else if key = "stop_iter" then Except.ok "stop_iter"
  else if key ∈ codes.complexCodes then Except.ok "complex"
  else if key ∈ codes.intCodes then Except.ok "int"
  else Except.error ("field not found in saved codes: " ++ key)

/-- The `complex_dic` component of `codes_mapping(*codes)`: each complex code
is mapped to its row index in the Z memmap (modelled; the mapping lives on
the `Fractal` class outside this source tree). -/
def complex_dic (codes : Codes) (key : String) : Nat :=
  codes.complexCodes.indexOf key

/-- The `int_dic` component of `codes_mapping(*codes)`: each int code is
mapped to its row index in the U memmap. -/
def int_dic (codes : Codes) (key : String) : Nat :=
  codes.intCodes.indexOf key

/-- The literal dictionary `arr_from_kind` of `Fractal_array.__getitem__`
(postproc.py 860-865). -/
def arr_from_kind : List (String × String) :=
  [("complex", "Z"), ("int", "U"),
   ("stop_reason", "stop_reason"), ("stop_iter", "stop_iter")]

/-- The class `Fractal_array` (postproc.py 771-916): the bound fractal (or
`None` after unpickling), the calculation name, the raw data key, the
constructor argument `_func` kept for serialization, the parsed `func`, and
the `inv` flag managing the `~` inversion. -/
structure Fractal_array (α : Type) where
  fractal : Option (FractalModel α)
  calc_name : String
  key : String
  _func : FuncArg
  func : FuncArg
  inv : Bool

/-- `Fractal_array.__init__` (postproc.py 772-814): stores `_func` as given
and `func = parse_func(func)`.  The pickle-serializability guard (797-809)
raises only for unserializable callables; every `FuncArg` value modelled
here stands for a serializable argument, so the guard never fires and is
omitted. -/
def mkFractal_array (fractal : Option (FractalModel α)) (calc_name key : String)
    (func : FuncArg) (inv : Bool) : Fractal_array α :=
  { fractal := fractal, calc_name := calc_name, key := key,
    _func := func, func := parse_func func, inv := inv }

/-- `Fractal_array.__invert__` (postproc.py 895-900): builds a new
`Fractal_array` with the same fractal, calc_name and key, `not(self.inv)`,
and passes `self.func` — the parsed function, not the constructor argument
`self._func` — as the `func` argument of the constructor. -/
def Fractal_array.invert (a : Fractal_array α) : Fractal_array α :=
  mkFractal_array a.fractal a.calc_name a.key a.func (!a.inv)

/-- `Fractal_array.__eq__` (postproc.py 902-913): compares `_func`,
`calc_name`, `key` and `inv`.  Python `==` on the `_func` values is value
equality for strings and `None` and object identity for function objects;
the model only ever propagates a single parsed object per expression, so
constructor equality of `FuncArg` captures it. -/
def Fractal_array.eq (a b : Fractal_array α) : Bool :=
  decide (a._func = b._func) && decide (a.calc_name = b.calc_name)
    && decide (a.key = b.key) && decide (a.inv = b.inv)

/-- A concrete `Fractal_array` built with its `func` given as a string
expression, as in the documented usage `func="np.sin(x)"`. -/
def c9_arr : Fractal_array Int :=
  mkFractal_array none "calc" "stop_reason" (FuncArg.fstr "np.sin(x)") false

/-- Claim C9 counterexample: for an array built with a string `func`,
applying `~` twice does not give back an object equal to the original under
`Fractal_array.__eq__`: `__invert__` passes the parsed `self.func` to the
constructor, so the double inverse stores the parsed function object as its
`_func` while the original stores the string. -/
theorem c9_invert_not_involutive_on_str :
    Fractal_array.eq (Fractal_array.invert (Fractal_array.invert c9_arr)) c9_arr
      = false := by
  rfl

/-- Claim C9 (amended): `~(~a)` equals `a` under `Fractal_array.__eq__`
whenever the constructor argument `func` is a fixed point of `parse_func`,
i.e. `None`, a plain callable, or an already parsed function — but not a
string expression, for which the counterexample above applies. -/
theorem c9_invert_involutive (fr : Option (FractalModel α)) (cn k : String)
    (f : FuncArg) (b : Bool) (hf : parse_func f = f) :
    Fractal_array.eq
      (Fractal_array.invert (Fractal_array.invert (mkFractal_array fr cn k f b)))
      (mkFractal_array fr cn k f b) = true := by
  cases f with
  | fstr s => simp [parse_func] at hf
  | fnone =>
      simp [mkFractal_array, Fractal_array.invert, Fractal_array.eq, parse_func,
        Bool.not_not]
  | fparsed s =>
      simp [mkFractal_array, Fractal_array.invert, Fractal_array.eq, parse_func,
        Bool.not_not]
  | fcallable n =>
      simp [mkFractal_array, Fractal_array.invert, Fractal_array.eq, parse_func,
        Bool.not_not]

/-- Claim C9 witness: the amended statement holds at a concrete array with
`func = None`. -/
theorem c9_invert_involutive_witness :
    Fractal_array.eq
      (Fractal_array.invert (Fractal_array.invert
        (mkFractal_array (α := Int) none "calc" "stop_iter" FuncArg.fnone false)))
      (mkFractal_array (α := Int) none "calc" "stop_iter" FuncArg.fnone false)
      = true :=
  c9_invert_involutive none "calc" "stop_iter" FuncArg.fnone false rfl

/-- Elementwise semantics of applying `self.func` to the raw data:
`funcSem s` is the (float) function denoted by the parsed string expression
`s` (the expression module is outside this source tree), `callSem n` the
function denoted by the plain callable with id `n`.  A raw string never
reaches `self.func` because the constructor parses it; the `fstr` equation
reuses `funcSem` for totality. -/
def funcElt (funcSem : String → α → α) (callSem : Nat → α → α) :
    FuncArg → α → α
  | FuncArg.fnone, x => x
  | FuncArg.fstr s, x => funcSem s x
  | FuncArg.fparsed s, x => funcSem s x
  | FuncArg.fcallable n, x => callSem n x

/-- The step `if self.func is not None: arr = self.func(arr)` applied to a
whole raw array. -/
def applyFunc (funcSem : String → α → α) (callSem : Nat → α → α) :
    FuncArg → List α → List α
  | FuncArg.fnone, arr => arr
  | f, arr => arr.map (funcElt funcSem callSem f)

/-- `Fractal_array.__getitem__` (postproc.py 832-893): raises for an unbound
fractal, classifies the key through `kind_from_code`, locates the pixel
range of the chunk through the report memmap when `chunk_slice` is not
`None` (full range otherwise), selects the memmap and the field row, and
applies `self.func` and the `~` inversion (`invOp`) as post-steps.  Errors
of the underlying Python code (KeyError on `arr_from_kind`, the explicit
`raise ValueError(kind)`) are the `Except.error` cases. -/
def Fractal_array.getitem (invOp : α → α) (funcSem : String → α → α)
    (callSem : Nat → α → α) (a : Fractal_array α) (chunk_slice : Option Nat) :
    Except String (List α) :=
  match a.fractal with
  | none => Except.error
      "Fractal_array without valid Fractal, might be an unbound state from unpickling"
  | some fractal =>
    let codes := fractal.codes
    match kind_from_code a.key codes with
    | Except.error e => Except.error e
    | Except.ok kind =>
      let range : Nat × Nat :=
        match chunk_slice with
        | some cs =>
          let rank := fractal.chunkRank cs
          (fractal.reportBegin rank, fractal.reportEnd rank)
        | none => (0, fractal.npts)
      match arr_from_kind.lookup kind with
      | none => Except.error kind
      | some arr_str =>
        let fieldE : Except String Nat :=
          if kind = "complex" then Except.ok (complex_dic codes a.key)
          else if kind = "int" then Except.ok (int_dic codes a.key)
          else if kind = "stop_reason" ∨ kind = "stop_iter" then Except.ok 0
          else Except.error kind
        match fieldE with
        | Except.error e => Except.error e
        | Except.ok field =>
          let arr := (List.range (range.2 - range.1)).map
            (fun i => fractal.dataMmap arr_str field (range.1 + i))
          let arr := applyFunc funcSem callSem a.func arr
          let arr := if a.inv then arr.map invOp else arr
          Except.ok arr

/-- The memmap holding a field of storage kind `kind`, following the spec
catalogue: complex fields live in Z, int fields in U, the termination data
in their own one-row stores. -/
def storedArrOf (kind : String) : String :=
  if kind = "complex" then "Z" else if kind = "int" then "U" else kind

/-- The row index of field `key` of storage kind `kind` inside its memmap,
following the spec catalogue. -/
def storedFieldOf (codes : Codes) (kind key : String) : Nat :=
  if kind = "complex" then complex_dic codes key
  else if kind = "int" then int_dic codes key else 0

/-- The stored value of field `key` (of kind `kind`) at absolute pixel `p`:
the spec-side description of the result store contents that
`Fractal_array.__getitem__` must return per pixel. -/
def storedFieldValue (F : FractalModel α) (kind key : String) (p : Nat) : α :=
  F.dataMmap (storedArrOf kind) (storedFieldOf F.codes kind key) p

/-- Inversion of `kind_from_code`: an `ok` kind is one of the four storage
kinds. -/
theorem kind_from_code_cases {key k : String} {codes : Codes}
    (h : kind_from_code key codes = Except.ok k) :
    k = "stop_reason" ∨ k = "stop_iter" ∨ k = "complex" ∨ k = "int" := by
  unfold kind_from_code at h
  split_ifs at h <;> simp_all

/-- Claim C2: for every chunk identifier and every stored field key,
`Fractal_array.__getitem__` returns exactly the stored field values for the
pixel range `[chunk1d_begin, chunk1d_end)` recorded for the rank of that
chunk in the global report index, with `self.func` applied and the result
inverted when `inv` is set; and when `chunk_slice` is `None` it returns the
field over the full pixel range. -/
theorem c2_fractal_array_getitem (invOp : α → α) (funcSem : String → α → α)
    (callSem : Nat → α → α) (F : FractalModel α) (cn key : String)
    (f : FuncArg) (iv : Bool) (k : String)
    (hk : kind_from_code key F.codes = Except.ok k) (cs : Nat) :
    (Fractal_array.getitem invOp funcSem callSem
        (mkFractal_array (some F) cn key f iv) (some cs)
      = Except.ok ((List.range
            (F.reportEnd (F.chunkRank cs) - F.reportBegin (F.chunkRank cs))).map
          (fun i =>
            let v := funcElt funcSem callSem (parse_func f)
              (storedFieldValue F k key (F.reportBegin (F.chunkRank cs) + i))
            if iv then invOp v else v)))
    ∧ (Fractal_array.getitem invOp funcSem callSem
        (mkFractal_array (some F) cn key f iv) none
      = Except.ok ((List.range F.npts).map
          (fun p =>
            let v := funcElt funcSem callSem (parse_func f)
              (storedFieldValue F k key p)
            if iv then invOp v else v))) := by
  have happ : ∀ arr : List α, applyFunc funcSem callSem (parse_func f) arr
      = arr.map (funcElt funcSem callSem (parse_func f)) := by
    intro arr
    cases f
    case fnone => exact (List.map_id arr).symm
    all_goals simp [applyFunc, parse_func, funcElt]
  rcases kind_from_code_cases hk with hk4 | hk4 | hk4 | hk4 <;> subst hk4 <;>
    constructor <;>
    simp only [Fractal_array.getitem, mkFractal_array, hk, arr_from_kind,
      List.lookup, storedFieldValue, storedArrOf, storedFieldOf, happ] <;>
    cases iv <;> simp [List.map_map, Function.comp]

/-- A concrete result store model over integer values: one complex code
"zn", one int code "attempt", report ranges of width 2 starting at 3 times
the rank, the stored value at pixel p being p itself. -/
def c2F : FractalModel Int :=
  { codes := { complexCodes := ["zn"], intCodes := ["attempt"],
               terminationCodes := ["max_iter", "divergence"] },
    chunkRank := fun cs => cs,
    reportBegin := fun r => 3 * r,
    reportEnd := fun r => 3 * r + 2,
    dataMmap := fun _ _ p => (p : Int),
    npts := 10 }

/-- Claim C2 witness: at the concrete store `c2F`, reading key "zn" (a
complex code) for chunk 2 returns the stored pixels 6 and 7, and reading
with `chunk_slice = None` returns the full range. -/
theorem c2_fractal_array_getitem_witness :
    kind_from_code "zn" c2F.codes = Except.ok "complex"
    ∧ Fractal_array.getitem (fun x => -(x + 1)) (fun _ x => x) (fun _ x => x)
        (mkFractal_array (some c2F) "calc" "zn" FuncArg.fnone false) (some 2)
      = Except.ok [(6 : Int), 7]
    ∧ Fractal_array.getitem (fun x => -(x + 1)) (fun _ x => x) (fun _ x => x)
        (mkFractal_array (some c2F) "calc" "zn" FuncArg.fnone false) none
      = Except.ok [(0 : Int), 1, 2, 3, 4, 5, 6, 7, 8, 9] := by
  have h := c2_fractal_array_getitem (fun x : Int => -(x + 1)) (fun _ x => x)
    (fun _ x => x) c2F "calc" "zn" FuncArg.fnone false "complex" rfl 2
  exact ⟨rfl, by simpa using h.1, by simpa using h.2⟩

/-! ## `Raw_pp` (postproc.py 198-247) -/

/-- The tuple stored by `Postproc_batch.set_chunk_data` for one chunk and
unpacked by `Raw_pp.__getitem__`: the Z and U memmaps (field row then pixel
index), the one-row `stop_reason` and `stop_iter` stores, and the dics of
`codes_mapping`.  The chunk mask and `c_pt` are not consulted by the reads
modelled here. -/
structure RawData (α : Type) where
  Z : Nat → Nat → α
  U : Nat → Nat → α
  stop_reason : Nat → α
  stop_iter : Nat → α
  npts : Nat

/-- The class `Raw_pp` (postproc.py 198-218): the raw data key and the
`func` argument, parsed when given as a string. -/
structure Raw_pp where
  key : String
  func : FuncArg

/-- `Raw_pp.__init__` (postproc.py 199-218). -/
def mkRaw_pp (key : String) (func : FuncArg) : Raw_pp :=
  { key := key, func := parse_func func }

/-- `Raw_pp.__getitem__` (postproc.py 220-247): classifies the key through
`kind_from_code`; a complex key demands a non-None `func` (explicit
ValueError otherwise); complex and int keys read their row of Z and U,
`"stop_reason"` and `"stop_iter"` read their one-row stores; any other
outcome leaves the local `arr` unbound (the if chain has no else branch),
which in Python surfaces as an UnboundLocalError; finally `func` is applied
when not None. -/
def Raw_pp.getitem (funcSem : String → α → α) (callSem : Nat → α → α)
    (pp : Raw_pp) (codes : Codes) (rd : RawData α) : Except String (List α) :=
  match kind_from_code pp.key codes with
  | Except.error e => Except.error e
  | Except.ok kind =>
    let arrE : Except String (List α) :=
      if kind = "complex" then
        match pp.func with
        | FuncArg.fnone => Except.error
            "for batch post-processing, complex vals should be mapped to float, provide func"
        | _ => Except.ok ((List.range rd.npts).map (rd.Z (complex_dic codes pp.key)))
      else if kind = "int" then
        Except.ok ((List.range rd.npts).map (rd.U (int_dic codes pp.key)))
      else if pp.key = "stop_reason" then
        Except.ok ((List.range rd.npts).map rd.stop_reason)
      else if pp.key = "stop_iter" then
        Except.ok ((List.range rd.npts).map rd.stop_iter)
      else Except.error "UnboundLocalError: local variable arr referenced before assignment"
    match arrE with
    | Except.error e => Except.error e
    | Except.ok arr => Except.ok (applyFunc funcSem callSem pp.func arr)

/-- A key absent from the stored schema makes `kind_from_code` fail. -/
theorem kind_from_code_unknown (key : String) (codes : Codes)
    (h1 : key ∉ codes.complexCodes) (h2 : key ∉ codes.intCodes)
    (h3 : key ≠ "stop_reason") (h4 : key ≠ "stop_iter") :
    kind_from_code key codes
      = Except.error ("field not found in saved codes: " ++ key) := by
  unfold kind_from_code
  rw [if_neg h3, if_neg h4, if_neg h1, if_neg h2]

/-- Claim C3: for every key that is not in the stored schema of a
calculation (not a complex code, not an int code, and neither
`"stop_reason"` nor `"stop_iter"`), reading that key through
`Raw_pp.__getitem__` or `Fractal_array.__getitem__` surfaces an explicit
error and never returns data. -/
theorem c3_unknown_key_raises (funcSem : String → α → α) (callSem : Nat → α → α)
    (invOp : α → α) (key : String) (codes : Codes)
    (h1 : key ∉ codes.complexCodes) (h2 : key ∉ codes.intCodes)
    (h3 : key ≠ "stop_reason") (h4 : key ≠ "stop_iter")
    (rd : RawData α) (f : FuncArg) (F : FractalModel α) (hF : F.codes = codes)
    (cn : String) (iv : Bool) (cs : Option Nat) :
    (∃ e, Raw_pp.getitem funcSem callSem (mkRaw_pp key f) codes rd
        = Except.error e)
    ∧ (∃ e, Fractal_array.getitem invOp funcSem callSem
        (mkFractal_array (some F) cn key f iv) cs = Except.error e) := by
  have hkc := kind_from_code_unknown key codes h1 h2 h3 h4
  constructor
  · exact ⟨_, by simp only [Raw_pp.getitem, mkRaw_pp, hkc]; rfl⟩
  · exact ⟨_, by simp only [Fractal_array.getitem, mkFractal_array, hF, hkc]; rfl⟩

/-- Claim C3 witness: at the concrete store `c2F`, the key "bogus" is not
in the schema and both read interfaces raise. -/
theorem c3_unknown_key_raises_witness :
    ("bogus" ∉ c2F.codes.complexCodes ∧ "bogus" ∉ c2F.codes.intCodes
      ∧ "bogus" ≠ "stop_reason" ∧ "bogus" ≠ "stop_iter")
    ∧ (∃ e, Raw_pp.getitem (fun _ x => x) (fun _ x => x)
        (mkRaw_pp "bogus" FuncArg.fnone) c2F.codes
        { Z := fun _ p => (p : Int), U := fun _ p => (p : Int),
          stop_reason := fun p => (p : Int), stop_iter := fun p => (p : Int),
          npts := 4 } = Except.error e)
    ∧ (∃ e, Fractal_array.getitem (fun x : Int => -(x + 1)) (fun _ x => x)
        (fun _ x => x) (mkFractal_array (some c2F) "calc" "bogus" FuncArg.fnone false)
        none = Except.error e) := by
  have h := c3_unknown_key_raises (fun (_ : String) (x : Int) => x) (fun _ x => x)
    (fun x : Int => -(x + 1)) "bogus" c2F.codes (by decide) (by decide)
    (by decide) (by decide)
    { Z := fun _ p => (p : Int), U := fun _ p => (p : Int),
      stop_reason := fun p => (p : Int), stop_iter := fun p => (p : Int),
      npts := 4 } FuncArg.fnone c2F rfl "calc" false none
  exact ⟨⟨by decide, by decide, by decide, by decide⟩, h.1, h.2⟩

/-! ## `Postproc_batch.add_postproc` (postproc.py 15-133) -/

/-- State of a `Postproc` object relevant to batch linking: the batch it is
linked to (`None` initially, set by `link_batch`) and its class attribute
`field_count`. -/
structure PostprocM where
  batch : Option Nat
  field_count : Nat
deriving DecidableEq

/-- An entry of the `posts` dictionary: either a one-field postproc stored
directly, or one of the two `XYCoord_wrapper_pp` objects wrapping a
two-field postproc (postproc.py 579-607; the wrapper stores the parent and
the coord, and the sibling link of the wrappers is not consulted by the
registration modelled here). -/
inductive PostEntry where
  | direct : PostprocM → PostEntry
  | xwrap : PostprocM → PostEntry
  | ywrap : PostprocM → PostEntry
deriving DecidableEq

/-- The state of a `Postproc_batch`: a model identity used by `link_batch`,
the insertion-ordered `posts` dictionary, and the `postnames_2d` list. -/
structure Postproc_batch where
  id : Nat
  posts : List (String × PostEntry)
  postnames_2d : List String

/-- Python dict assignment `d[k] = v`: overwrite the (unique) existing
binding in place when the key exists, append otherwise. -/
def dictSet : List (String × PostEntry) → String → PostEntry →
    List (String × PostEntry)
  | [], k, v => [(k, v)]
  | (k1, v1) :: tl, k, v =>
    if k1 = k then (k, v) :: tl else (k1, v1) :: dictSet tl k v

/-- Looking up the assigned key finds the assigned value. -/
theorem dictSet_lookup_self (d : List (String × PostEntry)) (k : String)
    (v : PostEntry) : (dictSet d k v).lookup k = some v := by
  induction d with
  | nil => simp [dictSet, List.lookup]
  | cons hd tl ih =>
    obtain ⟨k1, v1⟩ := hd
    by_cases h : k1 = k
    · subst h
      simp [dictSet, List.lookup]
    · have hne : (k == k1) = false := by
        simp only [beq_eq_false_iff_ne, ne_eq]
        exact fun he => h he.symm
      simp only [dictSet, if_neg h, List.lookup, hne]
      exact ih

/-- Looking up any other key is unchanged by the assignment. -/
theorem dictSet_lookup_other (d : List (String × PostEntry)) (k k2 : String)
    (v : PostEntry) (hne : k2 ≠ k) :
    (dictSet d k v).lookup k2 = d.lookup k2 := by
  induction d with
  | nil =>
    have h2 : (k2 == k) = false := by simpa [beq_eq_false_iff_ne] using hne
    simp [dictSet, List.lookup, h2]
  | cons hd tl ih =>
    obtain ⟨k1, v1⟩ := hd
    by_cases h : k1 = k
    · subst h
      have h2 : (k2 == k1) = false := by simpa [beq_eq_false_iff_ne] using hne
      simp [dictSet, List.lookup, h2]
    · simp only [dictSet, if_neg h, List.lookup]
      cases hk : (k2 == k1) with
      | true => rfl
      | false => exact ih

/-- Two appends of different suffixes differ. -/
theorem append_x_ne_y (p : String) : p ++ "_x" ≠ p ++ "_y" := by
  intro h
  have hd := congrArg String.data h
  rw [String.data_append, String.data_append] at hd
  have h2 := List.append_cancel_left hd
  exact absurd h2 (by decide)

/-- `Postproc_batch.add_postproc` (postproc.py 47-88): raises when the
postproc is already linked to a batch; otherwise links it
(`postproc.link_batch(self)`, postproc.py 127-133) and registers it under
`postname` when `field_count` is 1; when `field_count` is 2 the two
`XYCoord_wrapper_pp` fields are linked and registered under `postname_x`
and `postname_y` and `postname` is appended to `postnames_2d`; any other
`field_count` raises the "bigger than 2" ValueError.  Python mutates the
postproc before a `field_count` failure; the model returns only the batch
state, in which a failed call registers nothing. -/
def add_postproc (b : Postproc_batch) (postname : String) (pp : PostprocM) :
    Except String Postproc_batch :=
  if pp.batch ≠ none then
    Except.error "Postproc can only be linked to one batch"
  else
    let linked : PostprocM := { pp with batch := some b.id }
    if pp.field_count = 1 then
      Except.ok { b with posts := dictSet b.posts postname (PostEntry.direct linked) }
    else if pp.field_count = 2 then
      Except.ok { b with
        posts := dictSet (dictSet b.posts (postname ++ "_x") (PostEntry.xwrap linked))
          (postname ++ "_y") (PostEntry.ywrap linked),
        postnames_2d := b.postnames_2d ++ [postname] }
    else
      Except.error "postproc.field_count bigger than 2"

/-- Whether an `Except` result is an error (a raised exception). -/
def isErr : Except ε β → Bool
  | Except.error _ => true
  | Except.ok _ => false

/-- A concrete empty batch. -/
def c10_batch : Postproc_batch := { id := 7, posts := [], postnames_2d := [] }

/-- Claim C10 counterexample: a postproc that is not linked to any batch and
whose `field_count` is 0 does not exceed 2, yet `add_postproc` raises (the
else branch catches every count other than 1 and 2, not only counts bigger
than 2), contradicting the claimed "exactly when" condition. -/
theorem c10_add_postproc_zero_fields_raises :
    isErr (add_postproc c10_batch "p" { batch := none, field_count := 0 }) = true
    ∧ ({ batch := none, field_count := 0 } : PostprocM).batch = none
    ∧ ({ batch := none, field_count := 0 } : PostprocM).field_count ≤ 2 :=
  ⟨rfl, rfl, by decide⟩

/-- Claim C10 (amended): `add_postproc` raises ValueError exactly when the
postproc is already linked to a batch or its `field_count` is neither 1 nor
2 (the source raises for every other count, including 0, not only for
counts bigger than 2); otherwise it links the postproc to the batch and
registers it under `postname` when `field_count` is 1, or as the two
entries `postname_x` and `postname_y` with `postname` appended to
`postnames_2d` when `field_count` is 2, leaving every entry registered
under a different name unchanged. -/
theorem c10_add_postproc_spec (b : Postproc_batch) (postname : String)
    (pp : PostprocM) :
    (isErr (add_postproc b postname pp) = true
      ↔ (pp.batch ≠ none ∨ (pp.field_count ≠ 1 ∧ pp.field_count ≠ 2)))
    ∧ (pp.batch = none → pp.field_count = 1 →
        ∃ b2, add_postproc b postname pp = Except.ok b2
          ∧ b2.posts.lookup postname
              = some (PostEntry.direct { pp with batch := some b.id })
          ∧ (∀ k, k ≠ postname → b2.posts.lookup k = b.posts.lookup k)
          ∧ b2.postnames_2d = b.postnames_2d)
    ∧ (pp.batch = none → pp.field_count = 2 →
        ∃ b2, add_postproc b postname pp = Except.ok b2
          ∧ b2.posts.lookup (postname ++ "_x")
              = some (PostEntry.xwrap { pp with batch := some b.id })
          ∧ b2.posts.lookup (postname ++ "_y")
              = some (PostEntry.ywrap { pp with batch := some b.id })
          ∧ (∀ k, k ≠ postname ++ "_x" → k ≠ postname ++ "_y" →
              b2.posts.lookup k = b.posts.lookup k)
          ∧ b2.postnames_2d = b.postnames_2d ++ [postname]) := by
  rcases hpb : pp.batch with _ | bid
  · by_cases h1 : pp.field_count = 1
    · have hok : add_postproc b postname pp
          = Except.ok { b with
              posts := dictSet b.posts postname
                (PostEntry.direct { pp with batch := some b.id }) } := by
        simp [add_postproc, hpb, h1]
      refine ⟨?_, ?_, ?_⟩
      · simp [hok, isErr, h1]
      · intro _ _
        refine ⟨_, hok, dictSet_lookup_self _ _ _, ?_, rfl⟩
        intro k hk
        exact dictSet_lookup_other _ _ _ _ hk
      · intro _ h2
        exact absurd (h1.symm.trans h2 : (1:Nat) = 2) (by decide)
    · by_cases h2 : pp.field_count = 2
      · have hok : add_postproc b postname pp
            = Except.ok { b with
                posts := dictSet
                  (dictSet b.posts (postname ++ "_x")
                    (PostEntry.xwrap { pp with batch := some b.id }))
                  (postname ++ "_y")
                  (PostEntry.ywrap { pp with batch := some b.id }),
                postnames_2d := b.postnames_2d ++ [postname] } := by
          simp [add_postproc, hpb, h1, h2]
        refine ⟨?_, ?_, ?_⟩
        · simp [hok, isErr, h2]
        · intro _ hc
          exact absurd hc h1
        · intro _ _
          refine ⟨_, hok, ?_, dictSet_lookup_self _ _ _, ?_, rfl⟩
          · rw [dictSet_lookup_other _ _ _ _ (append_x_ne_y postname)]
            exact dictSet_lookup_self _ _ _
          · intro k hkx hky
            rw [dictSet_lookup_other _ _ _ _ hky,
              dictSet_lookup_other _ _ _ _ hkx]
      · have herr : add_postproc b postname pp
            = Except.error "postproc.field_count bigger than 2" := by
          simp [add_postproc, hpb, h1, h2]
        refine ⟨?_, ?_, ?_⟩
        · simp [herr, isErr, h1, h2]
        · intro _ hc
          exact absurd hc h1
        · intro _ hc
          exact absurd hc h2
  · have herr : add_postproc b postname pp
        = Except.error "Postproc can only be linked to one batch" := by
      simp [add_postproc, hpb]
    refine ⟨?_, ?_, ?_⟩
    · simp [herr, isErr, hpb]
    · intro hc
      simp at hc
    · intro hc
      simp at hc

/-- Claim C10 witness: at the empty batch, adding an unlinked one-field
postproc succeeds and registers it; adding an unlinked two-field postproc
registers the two coordinate entries. -/
theorem c10_add_postproc_spec_witness :
    (isErr (add_postproc c10_batch "dem" { batch := none, field_count := 1 }) = true
      ↔ (({ batch := none, field_count := 1 } : PostprocM).batch ≠ none
        ∨ (({ batch := none, field_count := 1 } : PostprocM).field_count ≠ 1
          ∧ ({ batch := none, field_count := 1 } : PostprocM).field_count ≠ 2)))
    ∧ ∃ b2, add_postproc c10_batch "dem" { batch := none, field_count := 1 }
          = Except.ok b2
        ∧ b2.posts.lookup "dem"
          = some (PostEntry.direct { batch := some 7, field_count := 1 }) := by
  have h := c10_add_postproc_spec c10_batch "dem" { batch := none, field_count := 1 }
  obtain ⟨b2, hok, hsel, _, _⟩ := h.2.1 rfl rfl
  exact ⟨h.1, b2, hok, hsel⟩

/-! ## Glitch correction rounds (spec 4.5, modelled) -/

/-- Per-pixel classification of the perturbation state machine (spec 3,
PixelState stop-reason enumeration). -/
inductive PixStatus where
  | iterating : PixStatus
  | escaped : PixStatus
  | interior : PixStatus
  | maxIter : PixStatus
  | glitched : PixStatus
deriving DecidableEq

/-- Modelled from the spec: the integer codes stored in the `stop_reason`
field.  The examples (run_flake.py 64-65) select glitched pixels with
`stop_reason == 3`; the tests (test_perturbation.py 77-78) treat reasons 0
and 2 as not escaped. -/
def statusCode : PixStatus → Nat
  | PixStatus.iterating => 0
  | PixStatus.escaped => 1
  | PixStatus.interior => 2
  | PixStatus.glitched => 3
  | PixStatus.maxIter => 0

/-- Modelled from the spec (4.5): one glitch-correction campaign of a
computation.  `initGlitched` is the set of pixels classified glitched after
the initial pass; `outcome r p` is the classification pixel `p` reaches
when the iterator is re-driven for it with the fresh reference orbit of
re-reference round `r` — a terminal classification, or glitched again. -/
structure GlitchRun where
  initGlitched : Finset Nat
  outcome : Nat → Nat → PixStatus

/-- The set of pixels still classified glitched after `r` re-reference
rounds: each round re-runs exactly the currently glitched pixels and keeps
those whose outcome is glitched again. -/
def GlitchRun.glitchedAfter (R : GlitchRun) : Nat → Finset Nat
  | 0 => R.initGlitched
  | r + 1 => (R.glitchedAfter r).filter (fun p => R.outcome r p = PixStatus.glitched)

/-- Membership after `r` rounds means glitched all the way through. -/
theorem glitchedAfter_mem (R : GlitchRun) (r p : Nat) :
    p ∈ R.glitchedAfter r
      ↔ p ∈ R.initGlitched ∧ ∀ q, q < r → R.outcome q p = PixStatus.glitched := by
  induction r with
  | zero => simp [GlitchRun.glitchedAfter]
  | succ r ih =>
    simp only [GlitchRun.glitchedAfter, Finset.mem_filter, ih, and_assoc]
    constructor
    · rintro ⟨hi, hall, hr⟩
      refine ⟨hi, fun q hq => ?_⟩
      rcases Nat.lt_succ_iff_lt_or_eq.mp hq with h | h
      · exact hall q h
      · rw [h]; exact hr
    · rintro ⟨hi, hall⟩
      exact ⟨hi, fun q hq => hall q (Nat.lt_succ_of_lt hq),
        hall r (Nat.lt_succ_self r)⟩

/-- An image on which one pixel stays glitched through every round. -/
def c5_badRun : GlitchRun :=
  { initGlitched := {0}, outcome := fun _ _ => PixStatus.glitched }

/-- Claim C5 counterexample: an image that requires correction (its initial
glitched set is nonempty) on which the glitched count does not reach zero
within the round budget (here glitch_max_attempt = 10): the re-reference
protocol bounds the rounds but does not guarantee convergence, which is why
pixels still glitched after the budget are reported as glitched. -/
theorem c5_glitch_not_converging :
    c5_badRun.initGlitched.Nonempty
    ∧ (c5_badRun.glitchedAfter 10).card ≠ 0 := by
  constructor
  · exact ⟨0, by decide⟩
  · decide

/-- Claim C5 (amended): across successive glitch re-reference rounds the
number of pixels classified glitched never increases; and when every
initially glitched pixel reaches a non-glitched classification in some
round before the budget — the empirical property of the test image — the
count reaches zero within the budget. -/
theorem c5_glitch_convergence (R : GlitchRun) (B : Nat)
    (hres : ∀ p ∈ R.initGlitched, ∃ r, r < B ∧ R.outcome r p ≠ PixStatus.glitched) :
    (∀ r, (R.glitchedAfter (r + 1)).card ≤ (R.glitchedAfter r).card)
    ∧ (R.glitchedAfter B).card = 0 := by
  constructor
  · intro r
    exact Finset.card_le_card (Finset.filter_subset _ _)
  · rw [Finset.card_eq_zero, Finset.eq_empty_iff_forall_not_mem]
    intro p hp
    rw [glitchedAfter_mem] at hp
    obtain ⟨hi, hall⟩ := hp
    obtain ⟨r, hrB, hout⟩ := hres p hi
    exact hout (hall r hrB)

/-- A two-pixel image whose glitched pixels resolve in rounds 0 and 1. -/
def c5_goodRun : GlitchRun :=
  { initGlitched := {0, 1},
    outcome := fun r p => if p ≤ r then PixStatus.escaped else PixStatus.glitched }

/-- Claim C5 witness: on the concrete two-pixel image the resolution
hypothesis holds with budget 2, so the count is non-increasing and reaches
zero within the budget. -/
theorem c5_glitch_convergence_witness :
    (∀ p ∈ c5_goodRun.initGlitched,
      ∃ r, r < 2 ∧ c5_goodRun.outcome r p ≠ PixStatus.glitched)
    ∧ (c5_goodRun.glitchedAfter 2).card = 0 := by
  have hres : ∀ p ∈ c5_goodRun.initGlitched,
      ∃ r, r < 2 ∧ c5_goodRun.outcome r p ≠ PixStatus.glitched := by
    intro p hp
    fin_cases hp
    · exact ⟨0, by decide, by decide⟩
    · exact ⟨1, by decide, by decide⟩
  exact ⟨hres, (c5_glitch_convergence c5_goodRun 2 hres).2⟩

/-- Modelled from the spec (4.5, 7): the terminal classification reported
for a pixel once the round budget `B` is exhausted: a pixel still glitched
is reported glitched; a resolved pixel keeps the terminal classification of
the round that resolved it (pixels never glitched keep their initial-pass
classification, outside this model). -/
def GlitchRun.finalStatus (R : GlitchRun) (B p : Nat) : PixStatus :=
  if p ∈ R.glitchedAfter B then PixStatus.glitched
  else ((List.range B).findSome? (fun r =>
      if R.outcome r p = PixStatus.glitched then none else some (R.outcome r p))).getD
    PixStatus.iterating

/-- The stored `stop_reason` code of a pixel after the campaign. -/
def GlitchRun.finalStopReason (R : GlitchRun) (B p : Nat) : Nat :=
  statusCode (R.finalStatus B p)

/-- Modelled from the spec (7): per-pixel numerical exhaustion is a terminal
per-pixel classification, never an abort: the batch report of a campaign
always succeeds, returning the stop_reason store. -/
def GlitchRun.batchReport (R : GlitchRun) (B : Nat) : Except String (Nat → Nat) :=
  Except.ok (fun p => R.finalStopReason B p)

/-- Claim C6: every pixel still glitched after the re-reference budget is
exhausted ends the run with the stop-reason code 3 for glitched (the code
selected by run_flake.py with `stop_reason == 3`), and the batch itself
never aborts on per-pixel exhaustion. -/
theorem c6_glitched_reported (R : GlitchRun) (B p : Nat)
    (hp : p ∈ R.glitchedAfter B) :
    R.finalStopReason B p = 3 ∧ isErr (R.batchReport B) = false := by
  constructor
  · unfold GlitchRun.finalStopReason GlitchRun.finalStatus
    rw [if_pos hp]
    rfl
  · rfl

/-- Claim C6 witness: pixel 0 of the always-glitched image is still
glitched after a budget of 1 round, is reported with code 3, and the batch
report succeeds. -/
theorem c6_glitched_reported_witness :
    0 ∈ c5_badRun.glitchedAfter 1
    ∧ c5_badRun.finalStopReason 1 0 = 3
    ∧ isErr (c5_badRun.batchReport 1) = false := by
  have hp : 0 ∈ c5_badRun.glitchedAfter 1 := by decide
  have h := c6_glitched_reported c5_badRun 1 0 hp
  exact ⟨hp, h.1, h.2⟩

/-! ## Configuration validation (spec 4.1, 7, modelled) -/

/-- The configuration errors rejected at setup (spec 7a). -/
inductive ConfigError where
  | invalidPrecision : ConfigError
  | invalidIterCap : ConfigError
deriving DecidableEq

/-- A validated configuration of the engine entry point (zoom and
calculation setup): the working precision in digits and the iteration
cap. -/
structure EngineConfig where
  precision : Int
  max_iter : Int
deriving DecidableEq

/-- Modelled from the spec (4.1, 7): configuration validation at setup
time: a non-positive precision or a non-positive iteration cap is a
configuration error rejected before any per-pixel iteration starts. -/
def setupValidate (precision max_iter : Int) : Except ConfigError EngineConfig :=
  if precision ≤ 0 then Except.error ConfigError.invalidPrecision
  else if max_iter ≤ 0 then Except.error ConfigError.invalidIterCap
  else Except.ok { precision := precision, max_iter := max_iter }

/-- Modelled from the spec: the per-pixel computation of a run is reachable
only through a validated configuration: `runCalculation` iterates pixels
only after `setupValidate` succeeds. -/
def runCalculation (precision max_iter : Int)
    (pixelIter : EngineConfig → Nat → Nat) : Except ConfigError (Nat → Nat) :=
  match setupValidate precision max_iter with
  | Except.error e => Except.error e
  | Except.ok cfg => Except.ok (pixelIter cfg)

/-- Claim C7: every configuration with a non-positive precision or a
non-positive iteration cap is rejected at setup time, and the engine never
produces per-pixel results for it. -/
theorem c7_config_rejected (p m : Int) (h : p ≤ 0 ∨ m ≤ 0)
    (pixelIter : EngineConfig → Nat → Nat) :
    (∃ e, setupValidate p m = Except.error e)
    ∧ ∀ res, runCalculation p m pixelIter ≠ Except.ok res := by
  have hv : ∃ e, setupValidate p m = Except.error e := by
    unfold setupValidate
    by_cases hp : p ≤ 0
    · exact ⟨ConfigError.invalidPrecision, by rw [if_pos hp]⟩
    · have hm : m ≤ 0 := h.resolve_left hp
      exact ⟨ConfigError.invalidIterCap, by rw [if_neg hp, if_pos hm]⟩
  refine ⟨hv, ?_⟩
  intro res hres
  obtain ⟨e, he⟩ := hv
  unfold runCalculation at hres
  rw [he] at hres
  cases hres

/-- Claim C7 witness: precision 0 with iteration cap 50000 is rejected and
yields no results. -/
theorem c7_config_rejected_witness :
    ((0 : Int) ≤ 0 ∨ (50000 : Int) ≤ 0)
    ∧ (∃ e, setupValidate 0 50000 = Except.error e)
    ∧ ∀ res, runCalculation 0 50000 (fun _ _ => 0) ≠ Except.ok res := by
  have h := c7_config_rejected 0 50000 (Or.inl (by decide)) (fun _ _ => 0)
  exact ⟨Or.inl (by decide), h.1, h.2⟩

/-! ## Run-to-run determinism (spec 8, modelled) -/

/-- Modelled from the spec (4.5) and from the repository test
test_perturbation.py 329-338, whose comment states that divref glitch
correction implies some random, which is why the test compares against an
absolute range instead of exact values: the stored stop_iter field of a
small image whose pixel 0 undergoes divref glitch correction.  The random
draw of the run shifts the re-referenced orbit alignment of the corrected
pixel; unglitched pixels do not depend on the draw. -/
def pipelineStoredIter (draw : Nat) (p : Nat) : Nat :=
  if p = 0 then 100 + draw % 2 else 10 + p

/-- The random dephasing of `Fieldlines_pp.__getitem__` (postproc.py
454-456): `rg = np.random.default_rng(0)` seeds the generator with the
literal 0 on every run, then `phi_fl = rg.random(n_iter) * swirl * np.pi`.
`rngStream s i` abstracts draw `i` of the generator stream for seed `s`
(the PCG64 generator itself is outside the embedded scope); `runSeed` is
the ambient randomness of the run, which the code never consults. -/
def fieldlinesPhi (rngStream : Nat → Nat → ℚ) (piConst : ℚ) (runSeed : Nat)
    (n_iter : Nat) (swirl : ℚ) : List ℚ :=
  (List.range n_iter).map (fun i => rngStream 0 i * swirl * piConst)

/-- Claim C4 counterexample: two runs of the same configuration whose
divref glitch correction drew different random values store different
stop_iter fields at the corrected pixel 0 (draws 0 and 1), so the pipeline
including glitch correction is not bit-identical across two runs. -/
theorem c4_not_bit_identical :
    ¬ ∀ d1 d2 : Nat,
        (fun p => pipelineStoredIter d1 p) = (fun p => pipelineStoredIter d2 p) := by
  intro h
  have h0 := congrFun (h 0 1) 0
  simp [pipelineStoredIter] at h0

/-- Claim C4 (amended): re-running with identical configuration and
identical glitch-correction random draws produces bit-identical stored
fields, and the randomized post-processing never varies between runs at
all — `Fieldlines_pp` seeds its generator with the constant 0, so its
dephasing is independent of the ambient run randomness. -/
theorem c4_deterministic_given_draws (rngStream : Nat → Nat → ℚ) (piConst : ℚ)
    (n_iter : Nat) (swirl : ℚ) (s t : Nat) (hdraw : s = t) :
    (∀ s2 t2 : Nat, fieldlinesPhi rngStream piConst s2 n_iter swirl
        = fieldlinesPhi rngStream piConst t2 n_iter swirl)
    ∧ (fun p => pipelineStoredIter s p) = (fun p => pipelineStoredIter t p) := by
  subst hdraw
  exact ⟨fun _ _ => rfl, rfl⟩

/-- Claim C4 witness: the amended statement at concrete draws 5 = 5. -/
theorem c4_deterministic_given_draws_witness :
    (∀ s2 t2 : Nat, fieldlinesPhi (fun _ _ => 0) 3 s2 4 1
        = fieldlinesPhi (fun _ _ => 0) 3 t2 4 1)
    ∧ (fun p => pipelineStoredIter 5 p) = (fun p => pipelineStoredIter 5 p) :=
  c4_deterministic_given_draws (fun _ _ => 0) 3 4 1 5 5 rfl

/-! ## Skip-ahead refinement (spec 4.2-4.4, 8, modelled) -/

/-- Why a per-pixel perturbation run stopped (spec 3, PixelState): still
iterating is the fuel-exhaustion marker, unreachable with sufficient
fuel. -/
inductive StopReason where
  | running : StopReason
  | escaped : StopReason
  | interior : StopReason
  | maxIter : StopReason
deriving DecidableEq

/-- Modelled from the spec (4.2-4.4): the data one pixel consults while
iterating its perturbation delta.  `step n d` is one exact perturbation
step of delta `d` at orbit index `n` (the recurrence uses the reference
orbit value at `n`); `esc n d` is the divergence test on the reconstructed
value `z_ref n + dz`; `stat n d` the stationarity test; `cap` the
iteration cap.  The state type `S` carries the delta together with its
tracked derivatives. -/
structure PerturbEngine (S : Type) where
  step : Nat → S → S
  esc : Nat → S → Bool
  stat : Nat → S → Bool
  cap : Nat

/-- Iterate `k` exact perturbation steps starting at orbit index `a`. -/
def PerturbEngine.stepIter (E : PerturbEngine S) : Nat → Nat → S → S
  | _, 0, s => s
  | a, k + 1, s => E.stepIter (a + 1) k (E.step a s)

/-- The exact state at orbit index `b` reached from state `s` at index `a`
(when `a <= b`). -/
def PerturbEngine.stepRange (E : PerturbEngine S) (a b : Nat) (s : S) : S :=
  E.stepIter a (b - a) s

/-- Modelled from the spec (4.4, with skip-ahead disabled): the exact
one-step perturbation iterator: at each orbit index test divergence, then
stationarity, then the iteration cap, then perform one exact step.  `fuel`
dominates the remaining iterations; with `cap - n < fuel` the
fuel-exhaustion marker is unreachable. -/
def PerturbEngine.exactRun (E : PerturbEngine S) : Nat → Nat → S → Nat × StopReason
  | 0, n, _ => (n, StopReason.running)
  | fuel + 1, n, s =>
    if E.esc n s then (n, StopReason.escaped)
    else if E.stat n s then (n, StopReason.interior)
    else if E.cap ≤ n then (n, StopReason.maxIter)
    else E.exactRun fuel (n + 1) (E.step n s)

/-- An SA or BLA approximation segment (spec 3): a closed-form update over
the iteration window `[nStart, nEnd)`; `applicable d` holds when the
accumulated error bound of the segment admits the jump for delta `d`. -/
structure Segment (S : Type) where
  nStart : Nat
  nEnd : Nat
  update : S → S
  applicable : S → Bool

/-- Modelled from the spec (3, Approximation Segment invariant, in the
spec's own words): applying the closed-form update of an applicable
segment to a delta "yields a result within a guaranteed tolerance of exact
iteration"; the window is nonempty and lies within the iteration cap.
`dist` measures the distance between states and `tol` is the guaranteed
tolerance of the configuration (SA_params err). -/
def SegmentsApproxValid (E : PerturbEngine S) (dist : S → S → ℚ) (tol : ℚ)
    (segs : List (Segment S)) : Prop :=
  ∀ g ∈ segs, ∀ s, g.applicable s = true →
    g.nStart < g.nEnd ∧ g.nEnd ≤ E.cap
    ∧ dist (g.update s) (E.stepRange g.nStart g.nEnd s) ≤ tol

/-- The hypothesis of the amended claim C1: the zero-tolerance idealization
of the spec 3 segment invariant — the closed-form update coincides with
exact iteration over the window, and neither the divergence nor the
stationarity test fires strictly inside the window (segments end where a
test could fire, spec 4.3).  Both strengthenings over
`SegmentsApproxValid` are forced by the counterexample below: a segment
that is merely within a positive tolerance can flip the stop reason, and
an exact segment whose window hides a divergence point shifts the stop
iteration beyond any tolerance. -/
def SegmentsValid (E : PerturbEngine S) (segs : List (Segment S)) : Prop :=
  ∀ g ∈ segs, ∀ s, g.applicable s = true →
    g.nStart < g.nEnd ∧ g.nEnd ≤ E.cap
    ∧ g.update s = E.stepRange g.nStart g.nEnd s
    ∧ ∀ m, m < g.nEnd → g.nStart < m →
        E.esc m (E.stepRange g.nStart m s) = false
        ∧ E.stat m (E.stepRange g.nStart m s) = false

/-- Zero-tolerance test-silent segments satisfy the within-tolerance
invariant of the spec, for every nonnegative tolerance and every distance
that vanishes on the diagonal: the amended hypothesis strengthens the spec
invariant, it does not replace it. -/
theorem SegmentsValid.to_approx (E : PerturbEngine S) (segs : List (Segment S))
    (hv : SegmentsValid E segs) (dist : S → S → ℚ)
    (hdist : ∀ x, dist x x = 0) (tol : ℚ) (htol : 0 ≤ tol) :
    SegmentsApproxValid E dist tol segs := by
  intro g hg s hs
  obtain ⟨h1, h2, h3, _⟩ := hv g hg s hs
  refine ⟨h1, h2, ?_⟩
  rw [h3, hdist]
  exact htol

/-- The segment consulted at `(n, s)`: the first listed applicable segment
starting at `n` (the list order models the preference for the largest
segment, spec 4.4). -/
def findSeg (segs : List (Segment S)) (n : Nat) (s : S) : Option (Segment S) :=
  segs.find? (fun g => g.nStart == n && g.applicable s)

/-- Modelled from the spec (4.4): the skip-ahead (SA/BLA) iterator: test
divergence, stationarity and the cap exactly as the one-step iterator
does, then consume an applicable segment covering the current index in one
algebraic jump, falling back to one exact step when no segment applies. -/
def PerturbEngine.skipRun (E : PerturbEngine S) (segs : List (Segment S)) :
    Nat → Nat → S → Nat × StopReason
  | 0, n, _ => (n, StopReason.running)
  | fuel + 1, n, s =>
    if E.esc n s then (n, StopReason.escaped)
    else if E.stat n s then (n, StopReason.interior)
    else if E.cap ≤ n then (n, StopReason.maxIter)
    else
      match findSeg segs n s with
      | some g => E.skipRun segs fuel g.nEnd (g.update s)
      | none => E.skipRun segs fuel (n + 1) (E.step n s)

/-- The stop iteration and stop reason of the exact run of a pixel whose
delta starts at `s` at iteration 0. -/
def PerturbEngine.exactStop (E : PerturbEngine S) (s : S) : Nat × StopReason :=
  E.exactRun (E.cap + 1) 0 s

/-- The stop iteration and stop reason of the skip-ahead run of the same
pixel. -/
def PerturbEngine.skipStop (E : PerturbEngine S) (segs : List (Segment S))
    (s : S) : Nat × StopReason :=
  E.skipRun segs (E.cap + 1) 0 s

/-- One-step unfolding of `stepRange` on a nonempty window. -/
theorem stepRange_succ_left (E : PerturbEngine S) {a b : Nat} (h : a < b)
    (s : S) : E.stepRange a b s = E.stepRange (a + 1) b (E.step a s) := by
  unfold PerturbEngine.stepRange
  obtain ⟨k, hk⟩ : ∃ k, b - a = k + 1 := ⟨b - a - 1, by omega⟩
  have hk2 : b - (a + 1) = k := by omega
  rw [hk, hk2]
  rfl

/-- A window of width one is one step. -/
theorem stepRange_one (E : PerturbEngine S) (a : Nat) (s : S) :
    E.stepRange a (a + 1) s = E.step a s := by
  unfold PerturbEngine.stepRange
  rw [Nat.add_sub_cancel_left]
  rfl

/-- The result of the exact run does not depend on the fuel once the fuel
dominates the remaining iterations. -/
theorem exactRun_fuel (E : PerturbEngine S) :
    ∀ f f2 n s, E.cap - n < f → E.cap - n < f2 →
      E.exactRun f n s = E.exactRun f2 n s
  | 0, _, n, _, h, _ => absurd h (by omega)
  | _ + 1, 0, n, _, _, h2 => absurd h2 (by omega)
  | f + 1, f2 + 1, n, s, h, h2 => by
    simp only [PerturbEngine.exactRun]
    split_ifs with h1 hstat hcap
    · rfl
    · rfl
    · rfl
    · exact exactRun_fuel E f f2 (n + 1) (E.step n s) (by omega) (by omega)

/-- Advancing the exact run across a window in which no test fires: the run
from `(a, s)` equals the run from the window end on the exactly iterated
state. -/
theorem exactRun_window (E : PerturbEngine S) :
    ∀ k a s f f2, E.esc a s = false → E.stat a s = false →
      a + (k + 1) ≤ E.cap →
      (∀ m, m < a + (k + 1) → a < m →
        E.esc m (E.stepRange a m s) = false
        ∧ E.stat m (E.stepRange a m s) = false) →
      E.cap - a < f → E.cap - (a + (k + 1)) < f2 →
      E.exactRun f a s = E.exactRun f2 (a + (k + 1)) (E.stepRange a (a + (k + 1)) s) := by
  intro k
  induction k with
  | zero =>
    intro a s f f2 hesc hstat hcapw hwin hf hf2
    match f, hf with
    | f + 1, _ =>
      simp only [PerturbEngine.exactRun, hesc, hstat, Bool.false_eq_true,
        if_false]
      rw [if_neg (by omega : ¬ E.cap ≤ a)]
      rw [stepRange_one]
      exact exactRun_fuel E f f2 (a + 1) (E.step a s) (by omega) (by omega)
  | succ k ih =>
    intro a s f f2 hesc hstat hcapw hwin hf hf2
    match f, hf with
    | f + 1, _ =>
      simp only [PerturbEngine.exactRun, hesc, hstat, Bool.false_eq_true,
        if_false]
      rw [if_neg (by omega : ¬ E.cap ≤ a)]
      have hesc1 : E.esc (a + 1) (E.step a s) = false := by
        have h := hwin (a + 1) (by omega) (by omega)
        rw [stepRange_one] at h
        exact h.1
      have hstat1 : E.stat (a + 1) (E.step a s) = false := by
        have h := hwin (a + 1) (by omega) (by omega)
        rw [stepRange_one] at h
        exact h.2
      have hwin1 : ∀ m, m < (a + 1) + (k + 1) → a + 1 < m →
          E.esc m (E.stepRange (a + 1) m (E.step a s)) = false
          ∧ E.stat m (E.stepRange (a + 1) m (E.step a s)) = false := by
        intro m hm1 hm2
        rw [← stepRange_succ_left E (by omega : a < m)]
        exact hwin m (by omega) (by omega)
      have hcapw1 : (a + 1) + (k + 1) ≤ E.cap := by omega
      have h := ih (a + 1) (E.step a s) f f2 hesc1 hstat1 hcapw1 hwin1
        (by omega) (by omega)
      rw [h]
      have he : (a + 1) + (k + 1) = a + (k + 1 + 1) := by omega
      rw [he]
      rw [← stepRange_succ_left E (by omega : a < a + (k + 1 + 1)) s]

/-- The skip-ahead iterator computes exactly the result of the exact
one-step iterator, for every valid segment list. -/
theorem skipRun_refines_exact (E : PerturbEngine S) (segs : List (Segment S))
    (hv : SegmentsValid E segs) :
    ∀ f n s, E.cap - n < f →
      E.skipRun segs f n s = E.exactRun (E.cap + 1) n s := by
  intro f
  induction f with
  | zero => intro n s h; omega
  | succ f ih =>
    intro n s hf
    have hunf : E.exactRun (E.cap + 1) n s
        = if E.esc n s then (n, StopReason.escaped)
          else if E.stat n s then (n, StopReason.interior)
          else if E.cap ≤ n then (n, StopReason.maxIter)
          else E.exactRun E.cap (n + 1) (E.step n s) := rfl
    simp only [PerturbEngine.skipRun, hunf]
    split_ifs with hesc hstat hcap
    · rfl
    · rfl
    · rfl
    · cases hfind : findSeg segs n s with
      | none =>
        show E.skipRun segs f (n + 1) (E.step n s)
          = E.exactRun E.cap (n + 1) (E.step n s)
        rw [ih (n + 1) (E.step n s) (by omega)]
        exact exactRun_fuel E (E.cap + 1) E.cap (n + 1) (E.step n s)
          (by omega) (by omega)
      | some g =>
        have hmem : g ∈ segs := List.mem_of_find?_eq_some hfind
        have hpred := List.find?_some hfind
        rw [Bool.and_eq_true, beq_iff_eq] at hpred
        obtain ⟨hstart, happl⟩ := hpred
        obtain ⟨hlt, hle, hupd, hwin⟩ := hv g hmem s happl
        rw [hstart] at hlt hupd hwin
        show E.skipRun segs f g.nEnd (g.update s)
          = E.exactRun E.cap (n + 1) (E.step n s)
        have hback : E.exactRun (E.cap + 1) n s
            = E.exactRun E.cap (n + 1) (E.step n s) := by
          rw [hunf]
          simp [hesc, hstat, hcap]
        rw [← hback]
        rw [ih g.nEnd (g.update s) (by omega)]
        rw [hupd]
        have he : n + (g.nEnd - n - 1 + 1) = g.nEnd := by omega
        have hesc2 : E.esc n s = false := by
          simpa using hesc
        have hstat2 : E.stat n s = false := by
          simpa using hstat
        have h := exactRun_window E (g.nEnd - n - 1) n s (E.cap + 1) (E.cap + 1)
          hesc2 hstat2 (by omega)
          (fun m hm1 hm2 => hwin m (by omega) hm2) (by omega) (by omega)
        rw [he] at h
        exact h.symm

/-- The natural distance on the toy state space `Fin 8`, as a rational. -/
def c1_dist (a b : Fin 8) : ℚ :=
  ((max (a : Nat) (b : Nat) - min (a : Nat) (b : Nat) : Nat) : ℚ)

/-- A concrete engine where divergence fires at magnitude 6 with cap 5. -/
def c1_apx_engine : PerturbEngine (Fin 8) :=
  { step := fun _ s => s + 1,
    esc := fun _ s => decide (6 ≤ (s : Nat)),
    stat := fun _ _ => false,
    cap := 5 }

/-- An approximate segment over the window [0, 2): its update lands one
unit away from exact iteration, within the guaranteed tolerance 1. -/
def c1_apx_segment : Segment (Fin 8) :=
  { nStart := 0, nEnd := 2, update := fun s => s + 3,
    applicable := fun s => s == 0 }

/-- A concrete engine where divergence fires at magnitude 3 with cap 5. -/
def c1_jump_engine : PerturbEngine (Fin 8) :=
  { step := fun _ s => s + 1,
    esc := fun _ s => decide (3 ≤ (s : Nat)),
    stat := fun _ _ => false,
    cap := 5 }

/-- An exact segment over the window [0, 5): its update coincides with
exact iteration (tolerance 0), but the exact trajectory diverges strictly
inside the window. -/
def c1_jump_segment : Segment (Fin 8) :=
  { nStart := 0, nEnd := 5, update := fun s => s + 5,
    applicable := fun s => s == 0 }

/-- Claim C1 counterexample: the spec segment invariant in its own
within-tolerance words does not give the claimed per-pixel agreement.
First part: a segment within guaranteed tolerance 1 makes the skip-ahead
run of the pixel with delta 0 stop with reason escaped while the exact
one-step run stops with reason max-iteration — the stop reasons differ.
Second part: even a zero-tolerance segment whose window hides a divergence
point makes the skip-ahead run stop at iteration 5 while the exact run
stops at iteration 3 — a stop-iteration gap beyond the configured
tolerance.  Both refute the claim as stated at the concrete pixel 0. -/
theorem c1_within_tolerance_counterexample :
    (SegmentsApproxValid c1_apx_engine c1_dist 1 [c1_apx_segment]
      ∧ (c1_apx_engine.skipStop [c1_apx_segment] (0 : Fin 8)).2 = StopReason.escaped
      ∧ (c1_apx_engine.exactStop (0 : Fin 8)).2 = StopReason.maxIter)
    ∧ (SegmentsApproxValid c1_jump_engine c1_dist 0 [c1_jump_segment]
      ∧ (c1_jump_engine.skipStop [c1_jump_segment] (0 : Fin 8)).1 = 5
      ∧ (c1_jump_engine.exactStop (0 : Fin 8)).1 = 3) := by
  constructor
  · refine ⟨?_, by decide, by decide⟩
    unfold SegmentsApproxValid
    decide
  · refine ⟨?_, by decide, by decide⟩
    unfold SegmentsApproxValid
    decide

/-- Claim C1 (amended): for every pixel delta, running the exact one-step
perturbation iterator from iteration 0 with no skip-ahead yields the same
stop reason and the same stop iteration as the skip-ahead computation for
every segment list satisfying the zero-tolerance test-silent invariant
(hence a stop iteration within any configured error tolerance); in
particular two different such segment lists — and SA disabled, the empty
list — produce equal results.  Under the within-tolerance invariant alone
the agreement can fail, per the counterexample above. -/
theorem c1_skip_ahead_refines_exact (E : PerturbEngine S)
    (segs1 segs2 : List (Segment S)) (hv1 : SegmentsValid E segs1)
    (hv2 : SegmentsValid E segs2) (s : S) :
    E.skipStop segs1 s = E.exactStop s
    ∧ E.skipStop segs2 s = E.exactStop s
    ∧ E.skipStop segs1 s = E.skipStop segs2 s := by
  have h1 : E.skipStop segs1 s = E.exactStop s :=
    skipRun_refines_exact E segs1 hv1 (E.cap + 1) 0 s (by omega)
  have h2 : E.skipStop segs2 s = E.exactStop s :=
    skipRun_refines_exact E segs2 hv2 (E.cap + 1) 0 s (by omega)
  exact ⟨h1, h2, h1.trans h2.symm⟩

/-- A tiny concrete engine on deltas in `Fin 8`: one exact step adds one,
divergence fires at magnitude 6, no stationarity, cap 4. -/
def c1_engine : PerturbEngine (Fin 8) :=
  { step := fun _ s => s + 1,
    esc := fun _ s => decide (6 ≤ (s : Nat)),
    stat := fun _ _ => false,
    cap := 4 }

/-- A concrete segment jumping the window [0, 2) for the delta 0. -/
def c1_segment : Segment (Fin 8) :=
  { nStart := 0, nEnd := 2, update := fun s => s + 2,
    applicable := fun s => s == 0 }

/-- Claim C1 witness: the concrete segment list is valid for the concrete
engine, and the skip-ahead run of the pixel with delta 0 equals both the
exact run and the run with skip-ahead disabled (the empty segment
list). -/
theorem c1_skip_ahead_refines_exact_witness :
    SegmentsValid c1_engine [c1_segment]
    ∧ c1_engine.skipStop [c1_segment] (0 : Fin 8) = c1_engine.exactStop (0 : Fin 8)
    ∧ c1_engine.skipStop [] (0 : Fin 8) = c1_engine.exactStop (0 : Fin 8) := by
  have hv1 : SegmentsValid c1_engine [c1_segment] := by
    unfold SegmentsValid
    decide
  have hv2 : SegmentsValid c1_engine ([] : List (Segment (Fin 8))) := by
    intro g hg
    cases hg
  have h := c1_skip_ahead_refines_exact c1_engine [c1_segment] [] hv1 hv2 0
  exact ⟨hv1, h.1, h.2.1⟩

end Fractalshades
